import Mathlib

/-!
Verification of the review-scraper core: a shallow embedding of the
extraction-and-pagination engine (scraper class), the persistent review
cache, the batch orchestrator and the CLI-facing result shapes, together
with proofs of the behavioural properties stated in the specification.

JavaScript-specific behaviour is modelled explicitly:
a string is truthy iff it is non-empty, `0` is falsy as a number,
`Object` assignment keyed by review id either overwrites the existing
entry in place or appends a fresh one.
-/

set_option autoImplicit false

namespace Scraper

/-- JS string truthiness: a string is truthy iff it is non-empty. -/
def jsTruthy (s : String) : Bool :=
  !(s == "")

/-- Truthiness of a `getAttribute` result (`string | null`). -/
def optTruthy : Option String → Bool
  | none => false
  | some s => jsTruthy s

/-- Model of `String.prototype.trim`: drop whitespace from both ends. -/
def jsTrim (s : String) : String :=
  ⟨((s.data.dropWhile Char.isWhitespace).reverse.dropWhile Char.isWhitespace).reverse⟩

/-- Does `needle` occur as a prefix of `hay` (character lists)? -/
def listIsPrefixOf : List Char → List Char → Bool
  | [], _ => true
  | _ :: _, [] => false
  | p :: ps, c :: cs => p == c && listIsPrefixOf ps cs

/-- Does `needle` occur as a contiguous sublist of `hay`? -/
def listOccurs (needle : List Char) : List Char → Bool
  | [] => needle.isEmpty
  | c :: cs => listIsPrefixOf needle (c :: cs) || listOccurs needle cs

/-- Model of `String.prototype.includes` (case sensitive). -/
def strIncludes (hay needle : String) : Bool :=
  listOccurs needle.data hay.data

/-- The `Review` record produced by the extractor (src/types, `Review`). -/
structure Review where
  id : String
  reviewerName : String
  rating : Nat
  reviewTitle : String
  reviewText : String
  reviewDate : String
  helpfulVotes : Nat
  isVerified : Bool
deriving DecidableEq

/-- The persisted cache value: `{ reviews: {id: Review}, lastUpdated, hotelUrl }`.
The JS object keyed by review id is modelled as an association list in
insertion order. -/
structure CacheData where
  reviews : List (String × Review)
  lastUpdated : String
  hotelUrl : String
deriving DecidableEq

/-- JS object update `obj[id] = r`: overwrite in place if the key exists,
otherwise append the new entry. -/
def setKey (m : List (String × Review)) (id : String) (r : Review) : List (String × Review) :=
  if m.any (fun p => p.1 == id) then
    m.map (fun p => if p.1 == id then (id, r) else p)
  else
    m ++ [(id, r)]

/-- `ReviewCache.hasReview`: `reviewId in this.cache.reviews`. -/
def hasReview (c : CacheData) (id : String) : Bool :=
  c.reviews.any (fun p => p.1 == id)

/-- `ReviewCache.getReview`: `this.cache.reviews[reviewId] || null`. -/
def getReview (c : CacheData) (id : String) : Option Review :=
  (c.reviews.find? (fun p => p.1 == id)).map Prod.snd

/-- `ReviewCache.addReview`: `if (review.id) { this.cache.reviews[review.id] = review; }`. -/
def addReview (c : CacheData) (r : Review) : CacheData :=
  if jsTruthy r.id then { c with reviews := setKey c.reviews r.id r } else c

/-- `ReviewCache.addReviews`: for each review, insert it when its id is
truthy and not already cached (the running `newCount` is only logged). -/
def addReviews (c : CacheData) : List Review → CacheData
  | [] => c
  | r :: rest =>
    addReviews (if jsTruthy r.id && !hasReview c r.id then addReview c r else c) rest

/-- The validity invariant of §3: a persistable review has a reviewer name
and at least one of title/text. -/
def validReview (r : Review) : Prop :=
  r.reviewerName ≠ "" ∧ (r.reviewTitle ≠ "" ∨ r.reviewText ≠ "")

instance (r : Review) : Decidable (validReview r) := by
  unfold validReview
  infer_instance

/-- `processSingleReviewCard`, after the per-card field extraction has
produced `reviewerName`, `rating`, `reviewTitle`, `reviewText` and
`reviewDate` and the review id has been resolved: return the cached
review when the id is cached; otherwise build the trimmed review and
insert it into the cache only when `reviewerName && (reviewText || reviewTitle)`
holds under JS truthiness, returning `null` and an unchanged cache when
the guard fails. -/
def processSingleReviewCard (cache : CacheData) (reviewId reviewerName : String)
    (rating : Nat) (reviewTitle reviewText reviewDate : String) :
    Option Review × CacheData :=
  if hasReview cache reviewId then
    (getReview cache reviewId, cache)
  else if jsTruthy reviewerName && (jsTruthy reviewText || jsTruthy reviewTitle) then
    let r : Review :=
      { id := reviewId
        reviewerName := jsTrim reviewerName
        rating := rating
        reviewTitle := jsTrim reviewTitle
        reviewText := jsTrim reviewText
        reviewDate := jsTrim reviewDate
        helpfulVotes := 0
        isVerified := false }
    (some r, addReview cache r)
  else
    (none, cache)

/-- Abstract site seen by one scraping session: the reviews the extractor
yields on each visited page, and whether `navigateToNextPage` succeeds
from each page (page indices count successful navigations). -/
structure Site where
  pageContent : Nat → List Review
  navSucceeds : Nat → Bool

/-- The cap part of the `while` guard, `(!maxReviews || allReviews.length < maxReviews)`:
an absent cap and the (falsy) cap `0` always allow more reviews. -/
def capAllows (m : Option Nat) (len : Nat) : Bool :=
  match m with
  | none => true
  | some n => n == 0 || decide (len < n)

/-- The mid-loop break `if (maxReviews && allReviews.length >= maxReviews)`:
fires only for a truthy (non-zero) cap that has been reached. -/
def capBreak (m : Option Nat) (len : Nat) : Bool :=
  match m with
  | none => false
  | some n => !(n == 0) && decide (n ≤ len)

/-- Is a review with this id already in the running session collection? -/
def hasId (rs : List Review) (id : String) : Bool :=
  rs.any (fun r => r.id == id)

/-- The per-page `for (const review of pageReviews)` body of
`extractAllReviewsWithPagination`: push each review whose id is not yet
collected while the cap guard allows it. -/
def addPage (m : Option Nat) (acc : List Review) : List Review → List Review
  | [] => acc
  | r :: rest =>
    if capAllows m acc.length && !hasId acc r.id then
      addPage m (acc ++ [r]) rest
    else
      addPage m acc rest

/-- The `while (hasMorePages && ...)` loop of `extractAllReviewsWithPagination`,
with an explicit iteration budget: `none` means the budget ran out with the
loop still running, `some acc` means the loop exited returning `acc`.
One unit of budget is one page visit. -/
def extractLoop (site : Site) (m : Option Nat) :
    Nat → List Review → Nat → Bool → Option (List Review)
  | 0, _, _, _ => none
  | fuel + 1, acc, page, hasMore =>
    if hasMore && capAllows m acc.length then
      let acc2 := addPage m acc (site.pageContent page)
      if capBreak m acc2.length then
        some acc2
      else
        let nav := site.navSucceeds page
        extractLoop site m fuel acc2 (if nav then page + 1 else page) nav
    else
      some acc

/-- `extractAllReviewsWithPagination(maxReviews)`: start with an empty
collection on the first page. -/
def extractAllReviewsWithPagination (site : Site) (m : Option Nat) (fuel : Nat) :
    Option (List Review) :=
  extractLoop site m fuel [] 0 true

/-- What one next-page selector yields in `navigateToNextPage`: visibility
of the first match, its `disabled` and `href` attributes, and whether the
click itself throws. -/
structure NextSelectorResult where
  visible : Bool
  disabledAttr : Option String
  href : Option String
  clickThrows : Bool
deriving DecidableEq

/-- `navigateToNextPage`, over the outcomes of its ordered selector list:
the first visible match whose `disabled` attribute is falsy and whose
`href` is truthy is clicked and `true` is returned; every other selector
is skipped. `postClickCards` is the number of review cards present after
the click; the source performs no post-click content check, so it is
never consulted. -/
def navigateToNextPage : List NextSelectorResult → Nat → Bool
  | [], _ => false
  | s :: rest, postClickCards =>
    if s.visible && !optTruthy s.disabledAttr && optTruthy s.href && !s.clickThrows then
      true
    else
      navigateToNextPage rest postClickCards

/-- A DOM handle as the card locator sees it: its `id` attribute (empty when
absent), its text content, and the match lists of the ordered inner
child-selector queries run against it. -/
inductive CardT : Type where
  | mk : String → String → List (List CardT) → CardT

/-- The `id` attribute of a card handle, with the empty string when absent. -/
def CardT.attrId : CardT → String
  | .mk i _ _ => i

/-- The text content of a card handle, with the empty string when absent. -/
def CardT.text : CardT → String
  | .mk _ t _ => t

/-- The results of the ordered inner child-selector queries on a handle. -/
def CardT.inner : CardT → List (List CardT)
  | .mk _ _ l => l

/-- The container heuristic of `extractReviews`:
the card id equals `tab-review-content`, or the card text includes the
`FiltersEnglish` sentinel. -/
def isContainer (c : CardT) : Bool :=
  c.attrId == "tab-review-content" || strIncludes c.text "FiltersEnglish"

/-- The inner `for (const innerSelector of innerSelectors)` loop: keep the
first child query yielding more than one match, else the fallback. -/
def locateInner : List (List CardT) → List CardT → List CardT
  | [], fallback => fallback
  | l :: ls, fallback => if decide (1 < l.length) then l else locateInner ls fallback

/-- The card-finding loop of `extractReviews`, over the match lists of the
ordered primary selectors: skip selectors with zero matches; at the first
selector with matches, a single match recognised as the review container
is re-queried inside (first child query with more than one match, the
container itself otherwise); any other match list is used as is. -/
def locateCards : List (List CardT) → List CardT
  | [] => []
  | [] :: rest => locateCards rest
  | [c] :: _ => if isContainer c then locateInner c.inner [c] else [c]
  | (c1 :: c2 :: cs) :: _ => c1 :: c2 :: cs

/-- The Card Locator algorithm as §4.1 words it: use the first query
yielding at least one match; when it yields exactly one match recognised
as a container, keep the first child query yielding more than one match,
falling back to the container itself. -/
def locateCardsSpec (results : List (List CardT)) : List CardT :=
  match results.find? (fun cards => !cards.isEmpty) with
  | none => []
  | some [c] =>
    if isContainer c then
      (c.inner.find? (fun l => decide (1 < l.length))).getD [c]
    else [c]
  | some cards => cards

/-- The durable-store state a `loadCache` call observes: `none` when the
cache file does not exist, otherwise the outcome of `readFileSync`
(`Except.error` when the read throws, `Except.ok` with the raw contents). -/
def FileState : Type := Option (Except String String)

/-- The body of the `try` block of `loadCache` in isolation: read the file when
it exists and parse it (`parse` models `JSON.parse`, returning `none` when
parsing throws); an `Except.error` is a raised exception. -/
def loadCacheRaw (parse : String → Option CacheData) (file : FileState)
    (c : CacheData) : Except String CacheData :=
  match file with
  | none => .ok c
  | some (.error e) => .error e
  | some (.ok s) =>
    match parse s with
    | some d => .ok d
    | none => .error "JSON parse error"

/-- `ReviewCache.loadCache` with its `catch`: a missing file keeps the
fresh cache, a successful read-and-parse replaces it, and any raised
error is swallowed, resetting to an empty review map with a fresh
`lastUpdated` (`now`) while keeping the current `hotelUrl`. -/
def loadCache (parse : String → Option CacheData) (file : FileState)
    (now : String) (c : CacheData) : CacheData :=
  match file with
  | none => c
  | some (.error _) => { reviews := [], lastUpdated := now, hotelUrl := c.hotelUrl }
  | some (.ok s) =>
    match parse s with
    | some d => d
    | none => { reviews := [], lastUpdated := now, hotelUrl := c.hotelUrl }

/-- The per-URL result value object (src/types, `ScrapingResult`); the
`error` field is absent on success. -/
structure ScrapingResult where
  url : String
  totalReviews : Nat
  scrapedReviews : Nat
  reviews : List Review
  scrapedAt : String
  error : Option String
deriving DecidableEq

/-- The result recorded when a session throws: zero counts, no reviews and
the thrown message in the `error` field. -/
def failedResult (url now msg : String) : ScrapingResult :=
  { url := url
    totalReviews := 0
    scrapedReviews := 0
    reviews := []
    scrapedAt := now
    error := some msg }

/-- `scrapeMultipleUrls`: run one session per URL in order, pushing the
result of the session, or the failed result when the session throws
(`session` models `scrapeReviews`, which can throw with a message). -/
def scrapeMultipleUrls (session : String → Except String ScrapingResult)
    (now : String) : List String → List ScrapingResult
  | [] => []
  | url :: rest =>
    (match session url with
     | .ok r => r
     | .error e => failedResult url now e) :: scrapeMultipleUrls session now rest

/-- The error message recorded for a session outcome, if any. -/
def errMsgOf : Except String ScrapingResult → Option String
  | .error e => some e
  | .ok _ => none

/-- Numeric value of a non-empty digit run (the `parseInt` of a capture
consisting of digits only). -/
def digitsVal (ds : List Char) : Nat :=
  ds.foldl (fun acc c => acc * 10 + (c.toNat - 48)) 0

/-- Consume a maximal non-empty digit run, returning its value and the rest. -/
def takeDigits (cs : List Char) : Option (Nat × List Char) :=
  if (cs.takeWhile Char.isDigit).isEmpty then none
  else some (digitsVal (cs.takeWhile Char.isDigit), cs.dropWhile Char.isDigit)

/-- Consume a non-empty whitespace run. -/
def takeSpaces1 (cs : List Char) : Option (List Char) :=
  if (cs.takeWhile Char.isWhitespace).isEmpty then none
  else some (cs.dropWhile Char.isWhitespace)

/-- Consume a literal word case-insensitively. -/
def takeCaseless : List Char → List Char → Option (List Char)
  | [], cs => some cs
  | _ :: _, [] => none
  | p :: ps, c :: cs => if c.toLower == p.toLower then takeCaseless ps cs else none

/-- Match the rating pattern at the start of the text: digits, spaces,
`of`, spaces, digits, spaces, `bubble` (case-insensitive), returning the
first captured number. -/
def bubbleMatchAt (cs : List Char) : Option Nat := do
  let (n, r1) ← takeDigits cs
  let r2 ← takeSpaces1 r1
  let r3 ← takeCaseless "of".data r2
  let r4 ← takeSpaces1 r3
  let (_, r5) ← takeDigits r4
  let r6 ← takeSpaces1 r5
  let _ ← takeCaseless "bubble".data r6
  some n

/-- Leftmost match of the rating pattern anywhere in the text. -/
def bubbleScan : List Char → Option Nat
  | [] => none
  | c :: cs =>
    match bubbleMatchAt (c :: cs) with
    | some n => some n
    | none => bubbleScan cs

/-- `title.match(/(\d+)\s+of\s+\d+\s+bubble/i)` followed by
`parseInt(match[1])`. -/
def bubbleMatch (s : String) : Option Nat :=
  bubbleScan s.data

/-- What `extractRatingFromCard` observes on one card: the title text of
each `svg` child (`none` when the title lookup throws), the resolved
`aria-labelledby` title text when that whole chain succeeds, and the
count of filled rating-bubble path matches. -/
structure RatingCard where
  svgTitles : List (Option String)
  ariaTitle : Option String
  filledBubbles : Nat
deriving DecidableEq

/-- Strategy 1 of `extractRatingFromCard`: first svg title that contains
`bubble` and matches the rating pattern; its parsed number is returned
with no further validation. -/
def ratingStrategy1 : List (Option String) → Option Nat
  | [] => none
  | none :: rest => ratingStrategy1 rest
  | some t :: rest =>
    if strIncludes t "bubble" then
      match bubbleMatch t with
      | some n => some n
      | none => ratingStrategy1 rest
    else
      ratingStrategy1 rest

/-- Strategy 2 of `extractRatingFromCard`: the `aria-labelledby` title,
when resolved, containing `bubble` and matching the rating pattern. -/
def ratingStrategy2 : Option String → Option Nat
  | none => none
  | some t =>
    if strIncludes t "bubble" then bubbleMatch t else none

/-- `extractRatingFromCard`: strategy 1, then strategy 2, then the filled
bubble count when it lies in 1..5, else the default 0. -/
def extractRatingFromCard (card : RatingCard) : Nat :=
  match ratingStrategy1 card.svgTitles with
  | some n => n
  | none =>
    match ratingStrategy2 card.ariaTitle with
    | some n => n
    | none =>
      if decide (0 < card.filledBubbles) && decide (card.filledBubbles ≤ 5) then
        card.filledBubbles
      else 0

/-! Concrete fixtures used by witnesses and counterexamples. -/

/-- A concrete valid review. -/
def ra : Review := ⟨"a", "Ann", 5, "Good", "Liked it", "May 2024", 0, false⟩

/-- A concrete valid review with a distinct id. -/
def rb : Review := ⟨"b", "Ben", 4, "Fine", "Stayed once", "June 2024", 0, false⟩

/-- A review sharing the id of `rb` but with different contents. -/
def rb2 : Review := ⟨"b", "Bea", 1, "Again", "Other text", "July 2024", 0, false⟩

/-- A concrete valid review with a third id. -/
def rc : Review := ⟨"c", "Cal", 3, "Okay", "Average", "July 2024", 0, false⟩

/-- A concrete valid review with a fourth id. -/
def rd : Review := ⟨"d", "Dee", 2, "Meh", "Noisy", "August 2024", 0, false⟩

/-- A fresh, empty in-memory cache. -/
def cache0 : CacheData := ⟨[], "t0", "u0"⟩

/-- A site with one review on every page and no further pages: reachable
with the requested cap 0, which the JS guard treats as falsy. -/
def capZeroSite : Site := ⟨fun _ => [ra], fun _ => false⟩

/-- A broken-pagination site: navigation always succeeds, yet every page
has zero review cards, so no page ever contributes a new review. -/
def stagSite : Site := ⟨fun _ => [], fun _ => true⟩

/-- A site where navigation immediately fails: the session stops at once. -/
def deadEndSite : Site := ⟨fun _ => [], fun _ => false⟩

/-- A two-page site: reviews `ra`, `rb` on the first page and `rc`, `rd`
on the second, with exactly one successful navigation. -/
def twoPageSite : Site := ⟨fun p => if p == 0 then [ra, rb] else [rc, rd], fun p => p == 0⟩

/-- A parser that rejects every store: models a corrupted cache file. -/
def badParse : String → Option CacheData := fun _ => none

/-- A concrete per-URL session: throws with message `boom` on the URL
`bad`, succeeds with a one-review result elsewhere. -/
def session0 : String → Except String ScrapingResult :=
  fun u => if u == "bad" then .error "boom" else .ok ⟨u, 1, 1, [ra], "T", none⟩

/-- The URL batch used by the batch-mode witness. -/
def urls0 : List String := ["ok1", "bad", "ok2"]

/-! Theorems. -/

/-- C10: for every Review whose id is the empty string (the only falsy
string), `ReviewCache.addReview` is a no-op: the cache value, hence its
review map, its size and its other fields, is returned unchanged. -/
theorem addReview_empty_id_noop (c : CacheData) (r : Review) (h : r.id = "") :
    addReview c r = c := by
  simp [addReview, jsTruthy, h]

/-- Witness for C10 at a concrete empty-id review and cache. -/
theorem addReview_empty_id_noop_witness :
    addReview cache0 ⟨"", "Ann", 5, "Good", "Liked it", "May 2024", 0, false⟩ = cache0 :=
  addReview_empty_id_noop cache0 ⟨"", "Ann", 5, "Good", "Liked it", "May 2024", 0, false⟩ rfl

/-- C5 counterexample: a next-page selector resolves to a visible, enabled,
href-bearing element, the click succeeds, and the post-click card count is
zero — the claim says this reports no advancement (false), but
`navigateToNextPage` returns true: the source has no post-click content
check. -/
theorem navigateToNextPage_zero_cards_cex :
    navigateToNextPage [⟨true, none, some "or10-x", false⟩] 0 = true := rfl

/-- C5 (amended): `navigateToNextPage` returns true iff some selector in
its fixed ordered list yields a visible element whose `disabled` attribute
is falsy and whose `href` is truthy and whose click does not throw; it
performs no post-navigation content comparison, so the result is
independent of the post-click card count (the right-hand side does not
mention it). -/
theorem navigateToNextPage_click_only (selectors : List NextSelectorResult)
    (postClickCards : Nat) :
    navigateToNextPage selectors postClickCards
      = selectors.any (fun s =>
          s.visible && !optTruthy s.disabledAttr && optTruthy s.href && !s.clickThrows) := by
  induction selectors with
  | nil => rfl
  | cons s rest ih =>
    cases h : (s.visible && !optTruthy s.disabledAttr && optTruthy s.href && !s.clickThrows) with
    | true => simp [navigateToNextPage, h]
    | false => simp [navigateToNextPage, h, ih]

/-- C7: whenever the body of the `try` block of `loadCache` raises (an
unreadable file or a store that fails to parse), `loadCache` still returns
normally, with the in-memory review map reset to empty, a fresh
`lastUpdated`, and the current `hotelUrl` preserved; the raised error is
swallowed (only a warning is logged). A missing file or a clean parse
never reaches this path. -/
theorem loadCache_error_resets (parse : String → Option CacheData) (file : FileState)
    (now : String) (c : CacheData) (e : String)
    (herr : loadCacheRaw parse file c = .error e) :
    loadCache parse file now c = { reviews := [], lastUpdated := now, hotelUrl := c.hotelUrl } := by
  match file with
  | none => simp [loadCacheRaw] at herr
  | some (.error e2) => rfl
  | some (.ok s) =>
    cases hp : parse s with
    | some d => simp [loadCacheRaw, hp] at herr
    | none => simp [loadCache, hp]

/-- Witness for C7: a readable but corrupted store resets the cache. -/
theorem loadCache_error_resets_witness :
    loadCache badParse (some (.ok "garbage")) "T1" cache0 = ⟨[], "T1", "u0"⟩ :=
  loadCache_error_resets badParse (some (.ok "garbage")) "T1" cache0 "JSON parse error" rfl

/-- The inner child-selector loop keeps the first query with more than one
match, else the fallback. -/
theorem locateInner_find (ls : List (List CardT)) (fb : List CardT) :
    locateInner ls fb = (ls.find? (fun l => decide (1 < l.length))).getD fb := by
  induction ls with
  | nil => rfl
  | cons l ls ih =>
    by_cases h : 1 < l.length
    · simp [locateInner, h, List.find?_cons_of_pos]
    · rw [locateInner, if_neg (by simpa using h), ih,
        List.find?_cons_of_neg _ (by simpa using h)]

/-- C6: the card-finding phase of `extractReviews` implements the Card
Locator contract word for word: it uses the first primary selector
yielding at least one match; when that selector yields exactly one match
recognised as a container (by its id or the `FiltersEnglish` sentinel in
its text), it re-queries inside that match with the secondary ordered
list and keeps the first child query yielding more than one match,
falling back to the container itself when none does; zero matches
everywhere yields no cards. -/
theorem locateCards_eq_spec (results : List (List CardT)) :
    locateCards results = locateCardsSpec results := by
  induction results with
  | nil => rfl
  | cons cards rest ih =>
    match cards with
    | [] =>
      have hs : locateCardsSpec ([] :: rest) = locateCardsSpec rest := by
        unfold locateCardsSpec
        rw [List.find?_cons_of_neg _ (by simp)]
      rw [hs, locateCards]
      exact ih
    | [c] =>
      show (if isContainer c = true then locateInner c.inner [c] else [c])
          = locateCardsSpec ([c] :: rest)
      rw [locateInner_find]
      rfl
    | c1 :: c2 :: cs => rfl

/-- For a positive cap, the cap guard allowing more reviews means the
collection is still strictly below the cap. -/
theorem capAllows_lt {n len : Nat} (hn : 1 ≤ n) (h : capAllows (some n) len = true) :
    len < n := by
  simp only [capAllows, Bool.or_eq_true, beq_iff_eq, decide_eq_true_eq] at h
  rcases h with h | h
  · omega
  · exact h

/-- For a positive cap, a full collection makes the cap guard refuse. -/
theorem capAllows_full {n len : Nat} (hn : 1 ≤ n) (hlen : n ≤ len) :
    capAllows (some n) len = false := by
  simp only [capAllows, Bool.or_eq_false_iff, beq_eq_false_iff_ne, ne_eq,
    decide_eq_false_iff_not, not_lt]
  omega

/-- Merging one page of cards never pushes a collection past a positive cap. -/
theorem addPage_length_le {n : Nat} (hn : 1 ≤ n) :
    ∀ (l acc : List Review), acc.length ≤ n → (addPage (some n) acc l).length ≤ n := by
  intro l
  induction l with
  | nil => intro acc h; simpa [addPage] using h
  | cons r rest ih =>
    intro acc h
    by_cases hc : (capAllows (some n) acc.length && !hasId acc r.id) = true
    · rw [addPage, if_pos hc]
      apply ih
      have hlt : acc.length < n := capAllows_lt hn (Bool.and_elim_left hc)
      simp only [List.length_append, List.length_cons, List.length_nil]
      omega
    · rw [addPage, if_neg hc]
      exact ih acc h

/-- Once a positive cap is reached, merging a page appends nothing. -/
theorem addPage_full {n : Nat} (hn : 1 ≤ n) :
    ∀ (l acc : List Review), n ≤ acc.length → addPage (some n) acc l = acc := by
  intro l
  induction l with
  | nil => intro acc _; rfl
  | cons r rest ih =>
    intro acc h
    rw [addPage, if_neg (by rw [capAllows_full hn h]; simp)]
    exact ih acc h

/-- Every terminating run of the session loop under a positive cap returns
at most `n` reviews, from any mid-loop state below the cap. -/
theorem extractLoop_length_le {site : Site} {n : Nat} (hn : 1 ≤ n) :
    ∀ (fuel : Nat) (acc : List Review) (page : Nat) (hm : Bool) (res : List Review),
      acc.length ≤ n →
      extractLoop site (some n) fuel acc page hm = some res → res.length ≤ n := by
  intro fuel
  induction fuel with
  | zero => intro acc page hm res _ hrun; exact absurd hrun (by simp [extractLoop])
  | succ fuel ih =>
    intro acc page hm res hacc hrun
    rw [extractLoop] at hrun
    by_cases hg : (hm && capAllows (some n) acc.length) = true
    · rw [if_pos hg] at hrun
      by_cases hb : capBreak (some n) (addPage (some n) acc (site.pageContent page)).length = true
      · rw [if_pos hb] at hrun
        have := Option.some.inj hrun
        rw [← this]
        exact addPage_length_le hn _ acc hacc
      · rw [if_neg hb] at hrun
        exact ih _ _ _ res (addPage_length_le hn _ acc hacc) hrun
    · rw [if_neg hg] at hrun
      have := Option.some.inj hrun
      rw [← this]
      exact hacc

/-- C1 (amended): for every requested cap `N ≥ 1`, a terminating session
(`extractAllReviewsWithPagination` with `maxReviews = N`) returns at most
`N` reviews, and once the collected count has reached `N` the page-merge
step appends no further review even when more cards remain on the page.
(The original claim also covered `N = 0`; the cap `0` is falsy in the JS
guard and is treated as no cap at all — see the counterexample.) -/
theorem cap_enforced (site : Site) (n fuel : Nat) (res acc page : List Review)
    (hn : 1 ≤ n)
    (hrun : extractAllReviewsWithPagination site (some n) fuel = some res)
    (hfull : n ≤ acc.length) :
    res.length ≤ n ∧ addPage (some n) acc page = acc :=
  ⟨extractLoop_length_le hn fuel [] 0 true res (by simp) hrun,
   addPage_full hn page acc hfull⟩

/-- C1 counterexample: with the requested cap `N = 0` (falsy in JS), a
session against a site with one review card returns 1 review, exceeding
the cap: the number of records returned is not `≤ N` for `N = 0`. -/
theorem cap_zero_cex :
    (extractAllReviewsWithPagination capZeroSite (some 0) 3).map List.length = some 1
      ∧ ¬ (1 ≤ 0) :=
  ⟨rfl, by decide⟩

/-- Witness for C1 on the concrete two-page site with cap 3: the session
returns the 3 reviews `ra`, `rb`, `rc`, and merging the page `[rd]` into
the full collection appends nothing. -/
theorem cap_enforced_witness :
    ([ra, rb, rc] : List Review).length ≤ 3
      ∧ addPage (some 3) [ra, rb, rc] [rd] = [ra, rb, rc] :=
  cap_enforced twoPageSite 3 5 [ra, rb, rc] [ra, rb, rc] [rd] (by decide) rfl (by decide)

/-- Ids already collected stay collected across a page merge. -/
theorem hasId_addPage_mono {m : Option Nat} :
    ∀ (l acc : List Review) (i : String),
      hasId acc i = true → hasId (addPage m acc l) i = true := by
  intro l
  induction l with
  | nil => intro acc i h; exact h
  | cons r rest ih =>
    intro acc i h
    by_cases hc : (capAllows m acc.length && !hasId acc r.id) = true
    · rw [addPage, if_pos hc]
      exact ih _ i (by simp [hasId, List.any_append]; left; simpa [hasId] using h)
    · rw [addPage, if_neg hc]
      exact ih acc i h

/-- With no cap, after merging a page every id of that page is collected. -/
theorem hasId_addPage_self :
    ∀ (l acc : List Review) (r : Review), r ∈ l →
      hasId (addPage none acc l) r.id = true := by
  intro l
  induction l with
  | nil => intro acc r hr; exact absurd hr (List.not_mem_nil r)
  | cons x rest ih =>
    intro acc r hr
    rcases List.mem_cons.mp hr with he | hm
    · subst he
      by_cases hx : hasId acc r.id = true
      · rw [addPage, if_neg (by simp [capAllows, hx])]
        exact hasId_addPage_mono rest acc r.id hx
      · rw [addPage, if_pos (by simp [capAllows]; simpa using hx)]
        apply hasId_addPage_mono
        simp [hasId, List.any_append]
    · by_cases hc : (capAllows none acc.length && !hasId acc x.id) = true
      · rw [addPage, if_pos hc]; exact ih _ r hm
      · rw [addPage, if_neg hc]; exact ih acc r hm

/-- Merging a page whose every id is already collected changes nothing
(with no cap, the only reason to skip a card is its id being collected). -/
theorem addPage_stagnant (l acc : List Review)
    (h : ∀ r ∈ l, hasId acc r.id = true) : addPage none acc l = acc := by
  induction l with
  | nil => rfl
  | cons r rest ih =>
    rw [addPage, if_neg (by simp [capAllows, h r (by simp)])]
    exact ih (fun x hx => h x (by simp [hx]))

/-- Against a site that always navigates and always serves the same page
content, once the first page has been merged the loop never exits, for
any remaining iteration budget. -/
theorem extractLoop_stagnation (site : Site) (l : List Review)
    (hnav : ∀ p, site.navSucceeds p = true)
    (hpage : ∀ p, site.pageContent p = l) :
    ∀ (fuel : Nat) (acc : List Review) (page : Nat),
      (∀ r ∈ l, hasId acc r.id = true) →
      extractLoop site none fuel acc page true = none := by
  intro fuel
  induction fuel with
  | zero => intro acc page _; rfl
  | succ fuel ih =>
    intro acc page hstag
    rw [extractLoop]
    rw [if_pos (by simp [capAllows])]
    rw [hpage page, addPage_stagnant l acc hstag, hnav page]
    simp only [capBreak, if_neg (by simp : ¬ (false = true)), if_pos rfl]
    exact ih acc (page + 1) hstag

/-- C2 (amended): against a listing whose pagination always reports that a
next page exists but whose pages never yield a previously-unseen review,
the session loop of `extractAllReviewsWithPagination` (run without a cap)
does NOT terminate: zero new records on a page only logs a warning, and
the loop goes on for every iteration budget. Termination requires the
navigation to fail or a non-zero cap to be reached. -/
theorem stagnation_diverges (site : Site) (l : List Review)
    (hnav : ∀ p, site.navSucceeds p = true)
    (hpage : ∀ p, site.pageContent p = l) (fuel : Nat) :
    extractAllReviewsWithPagination site none fuel = none := by
  cases fuel with
  | zero => rfl
  | succ fuel =>
    rw [extractAllReviewsWithPagination, extractLoop]
    rw [if_pos (by simp [capAllows])]
    rw [hpage 0, hnav 0]
    simp only [capBreak, if_neg (by simp : ¬ (false = true)), if_pos rfl]
    exact extractLoop_stagnation site l hnav hpage fuel (addPage none [] l) 1
      (fun r hr => hasId_addPage_self l [] r hr)

/-- C2 counterexample: on the broken-pagination site (`next page exists`
always true, zero cards on every page) the session has not terminated
after a budget of 9 page visits — termination within one extra page visit
would have produced a result within a budget of 2 — while a site whose
navigation fails terminates immediately with an empty result. -/
theorem stagnation_cex :
    extractAllReviewsWithPagination stagSite none 9 = none
      ∧ extractAllReviewsWithPagination stagSite none 2 = none
      ∧ extractAllReviewsWithPagination deadEndSite none 2 = some [] :=
  ⟨rfl, rfl, rfl⟩

/-- Witness for C2 on the concrete broken-pagination site with budget 6. -/
theorem stagnation_diverges_witness :
    extractAllReviewsWithPagination stagSite none 6 = none :=
  stagnation_diverges stagSite [] (fun _ => rfl) (fun _ => rfl) 6

/-- A JS string is truthy exactly when it is not the empty string. -/
theorem jsTruthy_iff {s : String} : jsTruthy s = true ↔ s ≠ "" := by
  simp [jsTruthy]

/-- Every entry of an updated map is an old entry or the new pair. -/
theorem mem_setKey {m : List (String × Review)} {id : String} {r : Review}
    {p : String × Review} (hp : p ∈ setKey m id r) : p ∈ m ∨ p = (id, r) := by
  unfold setKey at hp
  by_cases h : m.any (fun q => q.1 == id) = true
  · rw [if_pos h] at hp
    rcases List.mem_map.mp hp with ⟨q, hq, hqe⟩
    by_cases h2 : (q.1 == id) = true
    · right
      rw [if_pos h2] at hqe
      exact hqe.symm
    · left
      rw [if_neg h2] at hqe
      exact hqe ▸ hq
  · rw [if_neg h] at hp
    rcases List.mem_append.mp hp with hm | hs
    · exact Or.inl hm
    · exact Or.inr (by simpa using hs)

/-- `addReview` preserves the all-entries-valid invariant when the review
being added is itself valid. -/
theorem addReview_valid_preserved {c : CacheData} {r : Review}
    (hc : ∀ p ∈ c.reviews, validReview p.2) (hr : validReview r) :
    ∀ p ∈ (addReview c r).reviews, validReview p.2 := by
  intro p hp
  unfold addReview at hp
  by_cases h : jsTruthy r.id = true
  · rw [if_pos h] at hp
    rcases mem_setKey hp with hm | he
    · exact hc p hm
    · rw [he]
      exact hr
  · rw [if_neg h] at hp
    exact hc p hp

/-- C3: `processSingleReviewCard` inserts an extracted review into the
cache only when its reviewer name is non-empty and at least one of title
and text is non-empty (the JS guard `reviewerName && (reviewText || reviewTitle)`);
consequently, provided every extractor output is already trimmed (each
field extractor in the source returns either a trimmed string or a
literal), a cache whose entries all satisfy the validity invariant still
satisfies it after the call: no review with an empty reviewer name, or
with both title and text empty, is ever inserted. -/
theorem processSingleReviewCard_validity (cache : CacheData)
    (reviewId reviewerName : String) (rating : Nat)
    (reviewTitle reviewText reviewDate : String) (p : String × Review)
    (hname : jsTrim reviewerName = reviewerName)
    (htitle : jsTrim reviewTitle = reviewTitle)
    (htext : jsTrim reviewText = reviewText)
    (hcache : ∀ q ∈ cache.reviews, validReview q.2)
    (hp : p ∈ (processSingleReviewCard cache reviewId reviewerName rating
      reviewTitle reviewText reviewDate).2.reviews) :
    validReview p.2 := by
  unfold processSingleReviewCard at hp
  by_cases h1 : hasReview cache reviewId = true
  · rw [if_pos h1] at hp
    exact hcache p hp
  · rw [if_neg h1] at hp
    by_cases h2 : (jsTruthy reviewerName && (jsTruthy reviewText || jsTruthy reviewTitle)) = true
    · rw [if_pos h2] at hp
      refine addReview_valid_preserved hcache ?_ p hp
      have hn : jsTruthy reviewerName = true := Bool.and_elim_left h2
      have ht : (jsTruthy reviewText || jsTruthy reviewTitle) = true := Bool.and_elim_right h2
      constructor
      · show jsTrim reviewerName ≠ ""
        rw [hname]
        exact jsTruthy_iff.mp hn
      · rcases Bool.or_eq_true_iff.mp ht with h | h
        · right
          show jsTrim reviewText ≠ ""
          rw [htext]
          exact jsTruthy_iff.mp h
        · left
          show jsTrim reviewTitle ≠ ""
          rw [htitle]
          exact jsTruthy_iff.mp h
    · rw [if_neg h2] at hp
      exact hcache p hp

/-- Witness for C3: the validity of the concrete entry inserted for the
extracted fields (name `Alice`, title `Great stay`, empty text). -/
theorem processSingleReviewCard_validity_witness :
    validReview ⟨"r9", "Alice", 5, "Great stay", "", "", 0, false⟩ :=
  processSingleReviewCard_validity cache0 "r9" "Alice" 5 "Great stay" "" ""
    ("r9", ⟨"r9", "Alice", 5, "Great stay", "", "", 0, false⟩)
    (by decide) (by decide) (by decide) (by decide) (by decide)

/-- The key list of a cache: review ids in insertion order. -/
def cacheKeys (c : CacheData) : List String :=
  c.reviews.map Prod.fst

/-- `hasReview` decides membership in the key list. -/
theorem hasReview_iff {c : CacheData} {i : String} :
    hasReview c i = true ↔ i ∈ cacheKeys c := by
  unfold hasReview cacheKeys
  rw [List.any_eq_true]
  constructor
  · rintro ⟨p, hp, hbeq⟩
    exact List.mem_map.mpr ⟨p, hp, by simpa using hbeq⟩
  · intro hm
    rcases List.mem_map.mp hm with ⟨p, hp, he⟩
    exact ⟨p, hp, by simp [he]⟩

/-- Adding a review whose id is absent appends exactly its key. -/
theorem cacheKeys_addReview_absent {c : CacheData} {r : Review}
    (hid : jsTruthy r.id = true) (h : hasReview c r.id = false) :
    cacheKeys (addReview c r) = cacheKeys c ++ [r.id] := by
  unfold addReview
  rw [if_pos hid]
  unfold cacheKeys setKey
  have hb : (c.reviews.any fun p => p.1 == r.id) = false := h
  rw [if_neg (by rw [hb]; simp)]
  simp

/-- After a bulk merge, the key list stays duplicate-free and its key set
is the union of the old key set and the incoming id set (for reviews with
truthy ids). -/
theorem addReviews_keys (rs : List Review) :
    ∀ (c : CacheData), (∀ r ∈ rs, r.id ≠ "") → (cacheKeys c).Nodup →
      (cacheKeys (addReviews c rs)).Nodup ∧
        (cacheKeys (addReviews c rs)).toFinset
          = (cacheKeys c).toFinset ∪ (rs.map Review.id).toFinset := by
  induction rs with
  | nil =>
    intro c _ hnd
    simpa [addReviews] using hnd
  | cons r rest ih =>
    intro c h hnd
    have hid : r.id ≠ "" := h r (by simp)
    have hidt : jsTruthy r.id = true := jsTruthy_iff.mpr hid
    have hrest : ∀ x ∈ rest, x.id ≠ "" := fun x hx => h x (by simp [hx])
    rw [addReviews]
    cases hhas : hasReview c r.id with
    | false =>
      rw [if_pos (by simp [hidt])]
      have hkeys := cacheKeys_addReview_absent hidt hhas
      have hnotmem : r.id ∉ cacheKeys c := by
        intro hm
        rw [hasReview_iff.mpr hm] at hhas
        exact Bool.noConfusion hhas
      have hnd2 : (cacheKeys (addReview c r)).Nodup := by
        rw [hkeys]
        simp [List.nodup_append, hnd, hnotmem]
      obtain ⟨nd3, hs3⟩ := ih (addReview c r) hrest hnd2
      refine ⟨nd3, ?_⟩
      rw [hs3, hkeys]
      simp only [List.toFinset_append, List.toFinset_cons, List.toFinset_nil,
        List.map_cons]
      rw [Finset.union_assoc, Finset.insert_union, Finset.empty_union]
    | true =>
      rw [if_neg (by simp [hidt])]
      obtain ⟨nd3, hs3⟩ := ih c hrest hnd
      refine ⟨nd3, ?_⟩
      rw [hs3]
      have hmem : r.id ∈ (cacheKeys c).toFinset :=
        List.mem_toFinset.mpr (hasReview_iff.mp hhas)
      simp only [List.map_cons, List.toFinset_cons]
      rw [Finset.union_insert, Finset.insert_eq_self.mpr (Finset.mem_union_left _ hmem)]

/-- C4: merging two review sequences with truthy ids into the same fresh
`ReviewCache` via `addReviews` (the bulk merge behind each session), with
overlapping identity sets, leaves the cache holding exactly one entry per
id in the union of the two identity sets: its final count equals the
cardinality of the identity union, and its key list is duplicate-free. -/
theorem dedup_union_count (lu url : String) (xs ys : List Review)
    (hx : ∀ r ∈ xs, r.id ≠ "") (hy : ∀ r ∈ ys, r.id ≠ "")
    (_hover : ∃ i, i ∈ xs.map Review.id ∧ i ∈ ys.map Review.id) :
    (addReviews (addReviews ⟨[], lu, url⟩ xs) ys).reviews.length
        = ((xs ++ ys).map Review.id).toFinset.card
      ∧ ((addReviews (addReviews ⟨[], lu, url⟩ xs) ys).reviews.map Prod.fst).Nodup := by
  obtain ⟨nd1, hs1⟩ := addReviews_keys xs ⟨[], lu, url⟩ hx (by simp [cacheKeys])
  obtain ⟨nd2, hs2⟩ := addReviews_keys ys (addReviews ⟨[], lu, url⟩ xs) hy nd1
  refine ⟨?_, nd2⟩
  have hlen : (addReviews (addReviews ⟨[], lu, url⟩ xs) ys).reviews.length
      = (cacheKeys (addReviews (addReviews ⟨[], lu, url⟩ xs) ys)).length := by
    simp [cacheKeys]
  rw [hlen, ← List.toFinset_card_of_nodup nd2, hs2, hs1]
  simp [cacheKeys, List.map_append]

/-- Witness for C4: the batches `[ra, rb]` and `[rb2, rc]` overlap on the
id `b`; the final cache holds 3 entries, matching the identity union
`a, b, c`, with duplicate-free keys. -/
theorem dedup_union_count_witness :
    (addReviews (addReviews ⟨[], "t0", "u0"⟩ [ra, rb]) [rb2, rc]).reviews.length
        = (([ra, rb] ++ [rb2, rc]).map Review.id).toFinset.card
      ∧ ((addReviews (addReviews (⟨[], "t0", "u0"⟩ : CacheData) [ra, rb]) [rb2, rc]).reviews.map
          Prod.fst).Nodup :=
  dedup_union_count "t0" "u0" [ra, rb] [rb2, rc] (by decide) (by decide)
    ⟨"b", by decide, by decide⟩

/-- The batch loop is an entrywise map of the per-URL outcome: each entry
depends only on its own URL. -/
theorem scrapeMultipleUrls_eq_map (session : String → Except String ScrapingResult)
    (now : String) :
    ∀ urls, scrapeMultipleUrls session now urls
      = urls.map (fun u =>
          match session u with
          | .ok r => r
          | .error msg => failedResult u now msg) := by
  intro urls
  induction urls with
  | nil => rfl
  | cons u rest ih =>
    rw [scrapeMultipleUrls, ih]
    rfl

/-- C8: `scrapeMultipleUrls` returns one result per URL, in order; every
entry is a function of its own URL alone (so a failure at one URL leaves
every other entry unchanged); and a URL whose session throws a non-empty
message contributes the failed result: error field holding that message,
`scrapedReviews` 0 and an empty review list. -/
theorem batch_results (session : String → Except String ScrapingResult)
    (now : String) (urls : List String) (i : Nat) (e : String)
    (hi : i < urls.length)
    (hmsg : ∀ u ∈ urls, errMsgOf (session u) ≠ some "")
    (he : session (urls.get ⟨i, hi⟩) = .error e) :
    (scrapeMultipleUrls session now urls).length = urls.length
      ∧ scrapeMultipleUrls session now urls
          = urls.map (fun u =>
              match session u with
              | .ok r => r
              | .error msg => failedResult u now msg)
      ∧ (scrapeMultipleUrls session now urls)[i]?
          = some (failedResult (urls.get ⟨i, hi⟩) now e)
      ∧ e ≠ ""
      ∧ (failedResult (urls.get ⟨i, hi⟩) now e).error = some e
      ∧ (failedResult (urls.get ⟨i, hi⟩) now e).scrapedReviews = 0
      ∧ (failedResult (urls.get ⟨i, hi⟩) now e).reviews = [] := by
  have hu : urls.get ⟨i, hi⟩ ∈ urls := by apply List.get_mem
  refine ⟨?_, scrapeMultipleUrls_eq_map session now urls, ?_, ?_, rfl, rfl, rfl⟩
  · rw [scrapeMultipleUrls_eq_map]
    exact List.length_map urls _
  · rw [scrapeMultipleUrls_eq_map, List.getElem?_map, List.getElem?_eq_getElem hi]
    rw [List.get_eq_getElem] at he
    simp only [Option.map_some', he]
    rfl
  · intro heq
    exact hmsg _ hu (by rw [he, heq]; rfl)

/-- Witness for C8: the concrete batch `urls0` with the failing middle URL. -/
theorem batch_results_witness :
    (scrapeMultipleUrls session0 "T" urls0).length = urls0.length
      ∧ scrapeMultipleUrls session0 "T" urls0
          = urls0.map (fun u =>
              match session0 u with
              | .ok r => r
              | .error msg => failedResult u "T" msg)
      ∧ (scrapeMultipleUrls session0 "T" urls0)[1]?
          = some (failedResult (urls0.get ⟨1, by decide⟩) "T" "boom")
      ∧ "boom" ≠ ""
      ∧ (failedResult (urls0.get ⟨1, by decide⟩) "T" "boom").error = some "boom"
      ∧ (failedResult (urls0.get ⟨1, by decide⟩) "T" "boom").scrapedReviews = 0
      ∧ (failedResult (urls0.get ⟨1, by decide⟩) "T" "boom").reviews = [] :=
  batch_results session0 "T" urls0 1 "boom" (by decide) (by decide) rfl

/-- When strategy 1 produces a value, some svg title bubble-matched it. -/
theorem ratingStrategy1_mem :
    ∀ (ts : List (Option String)) (n : Nat), ratingStrategy1 ts = some n →
      ∃ s, some s ∈ ts ∧ bubbleMatch s = some n := by
  intro ts
  induction ts with
  | nil => intro n h; exact absurd h (by simp [ratingStrategy1])
  | cons t rest ih =>
    intro n h
    match t with
    | none =>
      obtain ⟨s, hmem, hbm⟩ := ih n h
      exact ⟨s, by simp [hmem], hbm⟩
    | some s =>
      rw [ratingStrategy1] at h
      by_cases hinc : strIncludes s "bubble" = true
      · rw [if_pos hinc] at h
        cases hbm : bubbleMatch s with
        | some m =>
          rw [hbm] at h
          exact ⟨s, by simp, by rw [hbm, Option.some.inj h]⟩
        | none =>
          rw [hbm] at h
          obtain ⟨s2, hmem, hbm2⟩ := ih n h
          exact ⟨s2, by simp [hmem], hbm2⟩
      · rw [if_neg hinc] at h
        obtain ⟨s2, hmem, hbm2⟩ := ih n h
        exact ⟨s2, by simp [hmem], hbm2⟩

/-- C9 (amended): `extractRatingFromCard` returns the value parsed by the
first successful strategy; strategies 1 and 2 perform no 1–5 range check
on the parsed bubble count, so the result is guaranteed to lie in 0–5
exactly when every bubble-pattern title on the card parses to at most 5
(the result is a natural number, so it is always at least 0; with no
successful strategy the default is 0, and strategy 3 checks 1–5 itself). -/
theorem rating_bounded (card : RatingCard)
    (h1 : ∀ s n, some s ∈ card.svgTitles → bubbleMatch s = some n → n ≤ 5)
    (h2 : ∀ s n, card.ariaTitle = some s → bubbleMatch s = some n → n ≤ 5) :
    extractRatingFromCard card ≤ 5 := by
  unfold extractRatingFromCard
  cases hs1 : ratingStrategy1 card.svgTitles with
  | some n =>
    obtain ⟨s, hmem, hbm⟩ := ratingStrategy1_mem card.svgTitles n hs1
    exact h1 s n hmem hbm
  | none =>
    cases hs2 : ratingStrategy2 card.ariaTitle with
    | some n =>
      cases hat : card.ariaTitle with
      | none => rw [hat] at hs2; exact absurd hs2 (by simp [ratingStrategy2])
      | some t =>
        rw [hat, ratingStrategy2] at hs2
        by_cases hinc : strIncludes t "bubble" = true
        · rw [if_pos hinc] at hs2
          exact h2 t n hat hs2
        · rw [if_neg hinc] at hs2
          exact absurd hs2 (by simp)
    | none =>
      by_cases hf : (decide (0 < card.filledBubbles) && decide (card.filledBubbles ≤ 5)) = true
      · rw [if_pos hf]
        simpa using Bool.and_elim_right hf
      · rw [if_neg hf]
        exact Nat.zero_le 5

/-- C9 counterexample: a card whose svg title reads `12 of 5 bubbles`
makes strategy 1 return the parsed value 12, outside the claimed 0–5
range (the source applies `parseInt` to the first captured digit run with
no range validation). -/
theorem rating_unbounded_cex :
    extractRatingFromCard ⟨[some "12 of 5 bubbles"], none, 0⟩ = 12 ∧ ¬ (12 ≤ 5) :=
  ⟨by decide, by decide⟩

/-- Witness for C9 on a card where only the filled-bubble count (3)
succeeds. -/
theorem rating_bounded_witness : extractRatingFromCard ⟨[], none, 3⟩ ≤ 5 :=
  rating_bounded ⟨[], none, 3⟩
    (fun s _ hmem _ => absurd hmem (List.not_mem_nil (some s)))
    (fun _ _ hat _ => Option.noConfusion hat)

end Scraper
